import Mathlib

/-!
Shallow embedding of the Game-of-Life grid engine of `src/src/index.js`
(class `GameOfLife`; the variant in `src/unnamed/part_001` is identical
except for the randomize threshold, which is a parameter `p` here).

Buffers are modelled as total functions `ℕ → ℕ → ℕ` indexed `[row][col]`
(only indices below `height` / `width` are meaningful, exactly the cells
the JavaScript arrays hold).  `Math.random()` draws are modelled as an
explicit stream `rand : ℕ → ℚ` of values, consumed in the same row-major
order as the source consumes them.  Fractional JavaScript numbers passed
as randomize bounds are modelled as `ℚ`.
-/

/-- A cell buffer: `g y x` is the cell at row `y`, column `x`. -/
def Grid : Type := ℕ → ℕ → ℕ

/-- Static method `GameOfLife.#CreateEmptyArray`: every cell is `0`. -/
def CreateEmptyArray : Grid := fun _ _ => 0

/-- The state of a `GameOfLife` instance: private fields `#width`,
`#height`, `#arrays` (two buffers, at indices `0` and `1`), `#index`
(the active-buffer selector) and `#count` (the cached live count). -/
structure GameOfLife where
  width : ℕ
  height : ℕ
  arrays : ℕ → Grid
  index : ℕ
  count : ℕ

attribute [ext] GameOfLife

/-- The constructor `new GameOfLife(width, height)` with `randomize = false`:
two zero-filled buffers, active index `0`, count `0`.  (The
`randomize = true` form additionally calls `randomize()` on the result.) -/
def GameOfLife.make (width height : ℕ) : GameOfLife :=
  { width := width
    height := height
    arrays := fun _ => CreateEmptyArray
    index := 0
    count := 0 }

/-- Clamping `sx = Math.floor(Math.max(sx, 0))` of a randomize lower bound. -/
def clampLow (v : ℚ) : ℤ := Int.floor (max v 0)

/-- Clamping `dx = Math.floor(Math.min(dx, bound))` of a randomize upper bound. -/
def clampHigh (v : ℚ) (bound : ℕ) : ℤ := Int.floor (min v (bound : ℚ))

/-- Expression `Math.random() > p ? 1 : 0`: the value written by
`randomize` for one draw `r` against the deployment threshold `p`
(`0.5` in `src/src/index.js`, `0.75` in `src/unnamed/part_001`). -/
def randCell (p r : ℚ) : ℕ := if p < r then 1 else 0

/-- The set of draws for which `Math.random() > p ? 1 : 0` yields `1`,
as a subset of the real draw space. -/
def randomizeOneSet (p : ℝ) : Set ℝ := {r : ℝ | p < r}

/-- Method `GameOfLife.randomize(sx, sy, dx, dy)`.  The clamped region is rows
`[⌊max(sy,0)⌋, ⌊min(dy,height)⌋)` by columns `[⌊max(sx,0)⌋, ⌊min(dx,width)⌋)`.
Each region cell of the *active* buffer is overwritten with
`Math.random() > p ? 1 : 0`, draws being consumed row-major inside the
region; `#count` is reset to `0` first and accumulates only the newly
assigned values. -/
def GameOfLife.randomize (g : GameOfLife) (p : ℚ) (rand : ℕ → ℚ)
    (sx sy dx dy : ℚ) : GameOfLife :=
  let sxN := (clampLow sx).toNat
  let syN := (clampLow sy).toNat
  let dxN := (clampHigh dx g.width).toNat
  let dyN := (clampHigh dy g.height).toNat
  let newActive : Grid := fun y x =>
    if syN ≤ y ∧ y < dyN ∧ sxN ≤ x ∧ x < dxN then
      randCell p (rand ((y - syN) * (dxN - sxN) + (x - sxN)))
    else g.arrays g.index y x
  { g with
    arrays := fun k => if k = g.index then newActive else g.arrays k
    count := ∑ y in Finset.Ico syN dyN, ∑ x in Finset.Ico sxN dxN,
      randCell p (rand ((y - syN) * (dxN - sxN) + (x - sxN))) }

/-- The static `#neighbors` offset table, `(dx, dy)` pairs. -/
def neighborOffsets : List (ℤ × ℤ) :=
  [(-1, -1), (0, -1), (1, -1),
   (-1, 0), (1, 0),
   (-1, 1), (0, 1), (1, 1)]

/-- The neighbor-counting loop of `step`: for each offset, skip
(`continue`) coordinates outside `[0,width) × [0,height)`, otherwise add
`current[ny][nx]`. -/
def neighborsCount (g : Grid) (width height : ℕ) (x y : ℕ) : ℕ :=
  (neighborOffsets.map (fun d =>
    let nx : ℤ := (x : ℤ) + d.1
    let ny : ℤ := (y : ℤ) + d.2
    if nx < 0 ∨ (width : ℤ) ≤ nx ∨ ny < 0 ∨ (height : ℤ) ≤ ny then 0
    else g ny.toNat nx.toNat)).sum

/-- The per-cell Conway branch of `step`: dead with exactly `3` neighbors
becomes `1`; live with `3` or `2` neighbors stays `1`; otherwise `0`. -/
def conwayCell (cur n : ℕ) : ℕ :=
  if cur = 0 ∧ n = 3 then 1
  else if cur = 1 ∧ (n = 3 ∨ n = 2) then 1
  else 0

/-- The value `step` stores into `next[y][x]`: the Conway value, then
`if (dissolve && Math.random() < dissolveChance) next[y][x] = 0`.  The
draw `r` is the one consumed for this cell when `dissolve` is set. -/
def stepCellValue (g : Grid) (width height : ℕ) (x y : ℕ)
    (dissolve : Bool) (dissolveChance : ℚ) (r : ℚ) : ℕ :=
  let v := conwayCell (g y x) (neighborsCount g width height x y)
  if dissolve = true ∧ r < dissolveChance then 0 else v

/-- Method `GameOfLife.step(dissolve, dissolveChance)`: writes every in-bounds
cell of the inactive buffer with `stepCellValue` (draw index `y*width+x`,
the row-major order in which the loop consumes draws), accumulates
`#count` over the written values, and flips `#index`. -/
def GameOfLife.step (g : GameOfLife) (dissolve : Bool)
    (dissolveChance : ℚ) (rand : ℕ → ℚ) : GameOfLife :=
  let current := g.arrays g.index
  let next := g.arrays (1 - g.index)
  let newNext : Grid := fun y x =>
    if y < g.height ∧ x < g.width then
      stepCellValue current g.width g.height x y dissolve dissolveChance
        (rand (y * g.width + x))
    else next y x
  { g with
    arrays := fun k => if k = 1 - g.index then newNext else g.arrays k
    index := 1 - g.index
    count := ∑ y in Finset.range g.height, ∑ x in Finset.range g.width,
      stepCellValue current g.width g.height x y dissolve dissolveChance
        (rand (y * g.width + x)) }

/-- The independent full-buffer summation of all cells of the active
buffer (the quantity the spec calls the live-cell total). -/
def activeSum (g : GameOfLife) : ℕ :=
  ∑ y in Finset.range g.height, ∑ x in Finset.range g.width,
    g.arrays g.index y x

/-- Method `GameOfLife.setArray(array)`: the loop runs `y` from `0` to
`height - 1` and `x` from `0` to `width - 1` in order, assigning
`array[y][x]` into the active buffer, with no shape validation and
without ever touching `#count`, `#index` or the other buffer.  This
definition is the content of the active buffer after the call, as
JavaScript values: `some n` is a number, `none` is the `undefined` that
`array[y][x]` yields past the end of a present row (stored silently, the
call keeps running).  When a row `array[y]` itself is missing
(`array.length ≤ y`), evaluating `array[y][x]` throws instead, ending
the call; rows are visited in order, so the cells assigned before that
throw — and therefore by every run, completed or interrupted — are
exactly those with `y < height`, `x < width` and `y < array.length`,
and every other cell keeps its prior (numeric) value. -/
def GameOfLife.setArray (g : GameOfLife) (a : List (List ℕ)) :
    ℕ → ℕ → Option ℕ :=
  fun y x =>
    if y < g.height ∧ x < g.width ∧ y < a.length then (a.getD y []).get? x
    else some (g.arrays g.index y x)

/-- Whether the raw `setArray` loop throws a `TypeError`: it evaluates
`array[y][x]` on a missing row `array[y]` exactly when some row below
`height` is missing and the inner loop actually runs (`width > 0`; with
`width = 0` the access is never reached and the call completes). -/
def GameOfLife.setArrayThrows (g : GameOfLife) (a : List (List ℕ)) : Bool :=
  decide (a.length < g.height ∧ 0 < g.width)

/-! ## Helper lemmas -/

/-- The cell a `step` call leaves at an in-bounds position of the buffer
that becomes active is exactly `stepCellValue` of the old active buffer. -/
theorem step_active_cell (g : GameOfLife) (d : Bool) (c : ℚ) (rand : ℕ → ℚ)
    (y x : ℕ) (hy : y < g.height) (hx : x < g.width) :
    (g.step d c rand).arrays (g.step d c rand).index y x =
      stepCellValue (g.arrays g.index) g.width g.height x y d c
        (rand (y * g.width + x)) := by
  simp [GameOfLife.step, hy, hx]

/-- Every value `step` writes is a bit. -/
theorem stepCellValue_eq_zero_or_one (gr : Grid) (w h x y : ℕ) (d : Bool)
    (c r : ℚ) :
    stepCellValue gr w h x y d c r = 0 ∨ stepCellValue gr w h x y d c r = 1 := by
  simp only [stepCellValue, conwayCell]
  split
  · exact Or.inl rfl
  · split
    · exact Or.inr rfl
    · split
      · exact Or.inr rfl
      · exact Or.inl rfl

/-- The neighbor loop reads only in-bounds cells: two buffers that agree
inside `[0,width) × [0,height)` yield the same neighbor count. -/
theorem neighborsCount_congr (g1 g2 : Grid) (w h : ℕ)
    (hagree : ∀ j, j < h → ∀ i, i < w → g1 j i = g2 j i) (x y : ℕ) :
    neighborsCount g1 w h x y = neighborsCount g2 w h x y := by
  have key : ∀ dx dy : ℤ,
      (if (x : ℤ) + dx < 0 ∨ (w : ℤ) ≤ (x : ℤ) + dx ∨
          (y : ℤ) + dy < 0 ∨ (h : ℤ) ≤ (y : ℤ) + dy then 0
        else g1 ((y : ℤ) + dy).toNat ((x : ℤ) + dx).toNat) =
      (if (x : ℤ) + dx < 0 ∨ (w : ℤ) ≤ (x : ℤ) + dx ∨
          (y : ℤ) + dy < 0 ∨ (h : ℤ) ≤ (y : ℤ) + dy then 0
        else g2 ((y : ℤ) + dy).toNat ((x : ℤ) + dx).toNat) := by
    intro dx dy
    split
    · rfl
    · rename_i hcond
      push_neg at hcond
      exact hagree _ (by omega) _ (by omega)
  simp only [neighborsCount, neighborOffsets, List.map_cons, List.map_nil,
    List.sum_cons, List.sum_nil]
  simp only [key]

/-- On a 1×1 grid every one of the 8 offsets leaves the grid, so the
neighbor count is 0. -/
theorem neighborsCount_one_one (gr : Grid) : neighborsCount gr 1 1 0 0 = 0 := by
  norm_num [neighborsCount, neighborOffsets]

/-- On a 1×1 grid the written cell is always 0, whatever the current
value, the dissolve flag and the draw. -/
theorem stepCellValue_one_one (gr : Grid) (d : Bool) (c r : ℚ) :
    stepCellValue gr 1 1 0 0 d c r = 0 := by
  simp [stepCellValue, conwayCell, neighborsCount_one_one]

/-- With `dissolveChance = 0` and a nonnegative draw the dissolve branch
never fires, so the written value is the plain Conway value. -/
theorem stepCellValue_zero_chance (gr : Grid) (w h x y : ℕ) (c r rw : ℚ)
    (hr : 0 ≤ r) :
    stepCellValue gr w h x y true 0 r = stepCellValue gr w h x y false c rw := by
  simp [stepCellValue, not_lt.mpr hr]

/-- Intersecting the one-assigning draw set with the unit interval gives
the open interval from the threshold to 1. -/
theorem randomizeOneSet_inter_Ico (p : ℝ) (hp0 : 0 ≤ p) :
    randomizeOneSet p ∩ Set.Ico (0 : ℝ) 1 = Set.Ioo p 1 := by
  ext r
  simp only [randomizeOneSet, Set.mem_inter_iff, Set.mem_setOf_eq,
    Set.mem_Ico, Set.mem_Ioo]
  constructor
  · rintro ⟨h1, _, h3⟩
    exact ⟨h1, h3⟩
  · rintro ⟨h1, h2⟩
    exact ⟨h1, le_trans hp0 h1.le, h2⟩

/-- With the dissolve flag off the stored value is the plain Conway
value. -/
theorem stepCellValue_no_dissolve (gr : Grid) (w h x y : ℕ) (c r : ℚ) :
    stepCellValue gr w h x y false c r =
      conwayCell (gr y x) (neighborsCount gr w h x y) := by
  simp [stepCellValue]

/-- The branch structure of `conwayCell`, with the disjunction stated as
2-or-3. -/
theorem conwayCell_cases (cur n : ℕ) :
    conwayCell cur n =
      if cur = 0 ∧ n = 3 then 1
      else if cur = 1 ∧ (n = 2 ∨ n = 3) then 1
      else 0 := by
  unfold conwayCell
  by_cases h1 : cur = 0 ∧ n = 3
  · rw [if_pos h1, if_pos h1]
  · rw [if_neg h1, if_neg h1]
    by_cases h2 : cur = 1 ∧ (n = 3 ∨ n = 2)
    · rw [if_pos h2, if_pos ⟨h2.1, h2.2.symm⟩]
    · rw [if_neg h2, if_neg fun h => h2 ⟨h.1, h.2.symm⟩]

/-! ## Claim theorems -/

/-- C1.  The spec requires `liveCount` after `randomize` to equal the sum
over the entire active buffer; the code resets the count and sums only the
randomized region.  On a 1×2 engine made fully live (draws `3/5`, count 2)
then randomized over the top cell only (draw `3/10`), the code leaves
`count = 0` while the active buffer still holds one live cell, so the
claimed invariant fails on the code. -/
theorem randomize_count_ignores_outside_region :
    (((GameOfLife.make 1 2).randomize (1/2) (fun _ => 3/5) 0 0 1 2).randomize
        (1/2) (fun _ => 3/10) 0 0 1 1).count = 0 ∧
      activeSum (((GameOfLife.make 1 2).randomize (1/2) (fun _ => 3/5) 0 0 1 2).randomize
        (1/2) (fun _ => 3/10) 0 0 1 1) = 1 := by
  norm_num [GameOfLife.randomize, GameOfLife.make, activeSum, clampLow,
    clampHigh, randCell, CreateEmptyArray, Finset.sum_range_succ,
    ← Finset.range_eq_Ico]

/-- C10.  When the clamped region is empty (bottom ≤ top or right ≤ left
after flooring and clamping), `randomize` writes no cell of either buffer
and does not swap the active index, yet it unconditionally resets the
cached count to 0, however many live cells the active buffer holds. -/
theorem randomize_empty_region_resets_count (g : GameOfLife) (p : ℚ)
    (rand : ℕ → ℚ) (sx sy dx dy : ℚ)
    (h : clampHigh dy g.height ≤ clampLow sy ∨
      clampHigh dx g.width ≤ clampLow sx) :
    (g.randomize p rand sx sy dx dy).count = 0 ∧
      (∀ k, (g.randomize p rand sx sy dx dy).arrays k = g.arrays k) ∧
      (g.randomize p rand sx sy dx dy).index = g.index := by
  have hN : (clampHigh dy g.height).toNat ≤ (clampLow sy).toNat ∨
      (clampHigh dx g.width).toNat ≤ (clampLow sx).toNat := by
    rcases h with h | h
    · exact Or.inl (Int.toNat_le_toNat h)
    · exact Or.inr (Int.toNat_le_toNat h)
  refine ⟨?_, ?_, rfl⟩
  · simp only [GameOfLife.randomize]
    rcases hN with hN | hN
    · rw [Finset.Ico_eq_empty (not_lt.mpr hN), Finset.sum_empty]
    · simp [Finset.Ico_eq_empty (not_lt.mpr hN)]
  · intro k
    funext y x
    simp only [GameOfLife.randomize]
    by_cases hk : k = g.index
    · rw [if_pos hk, if_neg (by rintro ⟨h1, h2, h3, h4⟩; omega), hk]
    · rw [if_neg hk]

/-- Witness for C10: a 1×1 engine whose single cell was made live
(draw `4/5`, count 1) then randomized over an empty region keeps the
live cell but reports `count = 0`. -/
theorem randomize_empty_region_resets_count_witness :
    (((GameOfLife.make 1 1).randomize (1/2) (fun _ => 4/5) 0 0 1 1).randomize
        (1/2) (fun _ => 0) 0 0 0 0).count = 0 ∧
      ((GameOfLife.make 1 1).randomize (1/2) (fun _ => 4/5) 0 0 1 1).arrays
        ((GameOfLife.make 1 1).randomize (1/2) (fun _ => 4/5) 0 0 1 1).index
        0 0 = 1 :=
  ⟨(randomize_empty_region_resets_count
      ((GameOfLife.make 1 1).randomize (1/2) (fun _ => 4/5) 0 0 1 1)
      (1/2) (fun _ => 0) 0 0 0 0
      (by norm_num [GameOfLife.randomize, GameOfLife.make, clampLow,
        clampHigh])).1,
    by norm_num [GameOfLife.randomize, GameOfLife.make, clampLow, clampHigh,
      randCell, CreateEmptyArray]⟩

/-- C8.  A `randomize` call never swaps the active index, never touches
any buffer other than the active one, and inside the active buffer leaves
every cell outside the clamped region at its prior value. -/
theorem randomize_frame (g : GameOfLife) (p : ℚ) (rand : ℕ → ℚ)
    (sx sy dx dy : ℚ) :
    (g.randomize p rand sx sy dx dy).index = g.index ∧
      (∀ k, k ≠ g.index → (g.randomize p rand sx sy dx dy).arrays k =
        g.arrays k) ∧
      (∀ y x, ¬((clampLow sy).toNat ≤ y ∧ y < (clampHigh dy g.height).toNat ∧
          (clampLow sx).toNat ≤ x ∧ x < (clampHigh dx g.width).toNat) →
        (g.randomize p rand sx sy dx dy).arrays g.index y x =
          g.arrays g.index y x) := by
  refine ⟨rfl, fun k hk => ?_, fun y x hout => ?_⟩
  · simp only [GameOfLife.randomize]
    rw [if_neg hk]
  · simp only [GameOfLife.randomize, if_true]
    exact if_neg hout

/-- C2.  Without dissolve, `step` writes the standard Conway transition
into the buffer that becomes active: a dead cell becomes live iff it has
exactly 3 live neighbors, a live cell stays live iff it has 2 or 3, and
every other combination yields 0. -/
theorem step_writes_conway_transition (g : GameOfLife) (c : ℚ)
    (rand : ℕ → ℚ) (x y : ℕ) (hx : x < g.width) (hy : y < g.height) :
    (g.step false c rand).arrays (g.step false c rand).index y x =
      if g.arrays g.index y x = 0 ∧
          neighborsCount (g.arrays g.index) g.width g.height x y = 3 then 1
      else if g.arrays g.index y x = 1 ∧
          (neighborsCount (g.arrays g.index) g.width g.height x y = 2 ∨
            neighborsCount (g.arrays g.index) g.width g.height x y = 3) then 1
      else 0 := by
  rw [step_active_cell g false c rand y x hy hx,
    stepCellValue_no_dissolve, conwayCell_cases]

/-- Witness for C2 at a concrete 1×1 engine and cell (0,0). -/
theorem step_writes_conway_transition_witness :
    ((GameOfLife.make 1 1).step false 0 (fun _ => 0)).arrays
        ((GameOfLife.make 1 1).step false 0 (fun _ => 0)).index 0 0 =
      if (GameOfLife.make 1 1).arrays (GameOfLife.make 1 1).index 0 0 = 0 ∧
          neighborsCount
            ((GameOfLife.make 1 1).arrays (GameOfLife.make 1 1).index)
            (GameOfLife.make 1 1).width (GameOfLife.make 1 1).height 0 0 = 3
        then 1
      else if (GameOfLife.make 1 1).arrays (GameOfLife.make 1 1).index 0 0 = 1 ∧
          (neighborsCount
              ((GameOfLife.make 1 1).arrays (GameOfLife.make 1 1).index)
              (GameOfLife.make 1 1).width (GameOfLife.make 1 1).height 0 0 = 2 ∨
            neighborsCount
              ((GameOfLife.make 1 1).arrays (GameOfLife.make 1 1).index)
              (GameOfLife.make 1 1).width (GameOfLife.make 1 1).height 0 0 = 3)
        then 1
      else 0 :=
  step_writes_conway_transition (GameOfLife.make 1 1) 0 (fun _ => 0) 0 0
    (by decide) (by decide)

/-- C3.  After any `step` (with or without dissolve, for any draws), the
cached count equals the exact number of 1-valued cells of the buffer that
became active. -/
theorem step_count_matches_new_active_buffer (g : GameOfLife) (d : Bool)
    (c : ℚ) (rand : ℕ → ℚ) :
    (g.step d c rand).count =
      ((Finset.range g.height ×ˢ Finset.range g.width).filter fun q =>
        (g.step d c rand).arrays (g.step d c rand).index q.1 q.2 = 1).card := by
  rw [Finset.card_filter, Finset.sum_product]
  have lhs : (g.step d c rand).count =
      ∑ y in Finset.range g.height, ∑ x in Finset.range g.width,
        stepCellValue (g.arrays g.index) g.width g.height x y d c
          (rand (y * g.width + x)) := rfl
  rw [lhs]
  refine Finset.sum_congr rfl fun y hy => Finset.sum_congr rfl fun x hx => ?_
  rw [step_active_cell g d c rand y x (Finset.mem_range.mp hy)
    (Finset.mem_range.mp hx)]
  rcases stepCellValue_eq_zero_or_one (g.arrays g.index) g.width g.height x y
      d c (rand (y * g.width + x)) with h | h <;> rw [h] <;> simp

/-- C4.  Neighbor counting never reads outside `[0,width) × [0,height)`:
it is invariant under changing the buffer outside those bounds; and on a
1×1 grid every `step` (any dissolve setting, any draws) produces a dead
cell and a zero count. -/
theorem step_neighbors_clipped (g1 g2 : Grid) (w h x y : ℕ)
    (hagree : ∀ j, j < h → ∀ i, i < w → g1 j i = g2 j i)
    (g : GameOfLife) (d : Bool) (c : ℚ) (rand : ℕ → ℚ)
    (hw : g.width = 1) (hh : g.height = 1) :
    neighborsCount g1 w h x y = neighborsCount g2 w h x y ∧
      (g.step d c rand).arrays (g.step d c rand).index 0 0 = 0 ∧
      (g.step d c rand).count = 0 := by
  refine ⟨neighborsCount_congr g1 g2 w h hagree x y, ?_, ?_⟩
  · rw [step_active_cell g d c rand 0 0 (by omega) (by omega), hw, hh]
    exact stepCellValue_one_one _ _ _ _
  · have lhs : (g.step d c rand).count =
        ∑ j in Finset.range g.height, ∑ i in Finset.range g.width,
          stepCellValue (g.arrays g.index) g.width g.height i j d c
            (rand (j * g.width + i)) := rfl
    rw [lhs, hw, hh]
    simp [stepCellValue_one_one]

/-- Witness for C4 at concrete buffers and a concrete 1×1 engine. -/
theorem step_neighbors_clipped_witness :
    neighborsCount (fun _ _ => 0) 2 2 0 0 =
        neighborsCount (fun _ _ => 0) 2 2 0 0 ∧
      ((GameOfLife.make 1 1).step false 0 (fun _ => 0)).arrays
        ((GameOfLife.make 1 1).step false 0 (fun _ => 0)).index 0 0 = 0 ∧
      ((GameOfLife.make 1 1).step false 0 (fun _ => 0)).count = 0 :=
  step_neighbors_clipped (fun _ _ => 0) (fun _ _ => 0) 2 2 0 0
    (fun _ _ _ _ => rfl) (GameOfLife.make 1 1) false 0 (fun _ => 0)
    rfl rfl

/-- C6.  With `applyDissolve = true` and `dissolveChance = 1`, every draw
taken from `[0,1)` satisfies the dissolve test, so every in-bounds cell of
the buffer that becomes active is forced to 0. -/
theorem step_full_dissolve_all_dead (g : GameOfLife) (rand : ℕ → ℚ)
    (hr : ∀ n, 0 ≤ rand n ∧ rand n < 1) :
    ∀ y, y < g.height → ∀ x, x < g.width →
      (g.step true 1 rand).arrays (g.step true 1 rand).index y x = 0 := by
  intro y hy x hx
  rw [step_active_cell g true 1 rand y x hy hx]
  simp [stepCellValue, (hr (y * g.width + x)).2]

/-- Witness for C6: a 2×2 engine stepped with dissolve chance 1 under the
constant draw 0. -/
theorem step_full_dissolve_all_dead_witness :
    (∀ n : ℕ, 0 ≤ (fun _ : ℕ => (0 : ℚ)) n ∧ (fun _ : ℕ => (0 : ℚ)) n < 1) ∧
      ((GameOfLife.make 2 2).step true 1 (fun _ => 0)).arrays
        ((GameOfLife.make 2 2).step true 1 (fun _ => 0)).index 1 1 = 0 :=
  ⟨fun _ => ⟨le_refl 0, by norm_num⟩,
    step_full_dissolve_all_dead (GameOfLife.make 2 2) (fun _ => 0)
      (fun _ => ⟨le_refl 0, by norm_num⟩) 1 (by decide) 1 (by decide)⟩

/-- C7.  With `applyDissolve = true` and `dissolveChance = 0`, no
nonnegative draw passes the test `Math.random() < 0`, so `step` returns
exactly the state `applyDissolve = false` returns: same buffers, same
active index, same count, whatever draws either run consumes. -/
theorem step_zero_dissolve_chance_eq (g : GameOfLife) (rand rw : ℕ → ℚ)
    (c : ℚ) (hr : ∀ n, 0 ≤ rand n) :
    g.step true 0 rand = g.step false c rw := by
  have cell : ∀ y x : ℕ,
      stepCellValue (g.arrays g.index) g.width g.height x y true 0
          (rand (y * g.width + x)) =
        stepCellValue (g.arrays g.index) g.width g.height x y false c
          (rw (y * g.width + x)) :=
    fun y x => stepCellValue_zero_chance _ _ _ _ _ _ _ _ (hr _)
  refine GameOfLife.ext rfl rfl ?_ rfl ?_
  · simp only [GameOfLife.step]
    funext k
    by_cases hk : k = 1 - g.index
    · rw [if_pos hk, if_pos hk]
      funext y x
      by_cases hin : y < g.height ∧ x < g.width
      · rw [if_pos hin, if_pos hin, cell]
      · rw [if_neg hin, if_neg hin]
    · rw [if_neg hk, if_neg hk]
  · simp only [GameOfLife.step]
    exact Finset.sum_congr rfl fun y _ =>
      Finset.sum_congr rfl fun x _ => cell y x

/-- Witness for C7: a 1×1 engine, constant draw 0 against constant draw
7/10 and dissolve chance 1/5 on the dissolve-free side. -/
theorem step_zero_dissolve_chance_eq_witness :
    (∀ n : ℕ, 0 ≤ (fun _ : ℕ => (0 : ℚ)) n) ∧
      (GameOfLife.make 1 1).step true 0 (fun _ => 0) =
        (GameOfLife.make 1 1).step false (1/5) (fun _ => 7/10) :=
  ⟨fun _ => le_refl 0,
    step_zero_dissolve_chance_eq (GameOfLife.make 1 1) (fun _ => 0)
      (fun _ => 7/10) (1/5) (fun _ => le_refl 0)⟩

/-- C9 counterexample.  A 2×2 input into a 1×1 engine has mismatched row
and column counts, yet `setArray` raises nothing: the call completes
without any error, silently truncates, and overwrites the active cell
(previously 0) with 1 — not a `ShapeMismatch`, not unchanged buffers. -/
theorem setArray_mismatched_input_accepted :
    (GameOfLife.make 1 1).setArrayThrows [[1, 1], [1, 1]] = false ∧
      (GameOfLife.make 1 1).setArray [[1, 1], [1, 1]] 0 0 = some 1 ∧
      (GameOfLife.make 1 1).arrays (GameOfLife.make 1 1).index 0 0 = 0 :=
  ⟨rfl, rfl, rfl⟩

/-- C9 amended.  `setArray` performs no shape validation and raises no
`ShapeMismatch` error: whenever the input provides at least `height`
rows each holding at least `width` entries (in particular any strictly
larger, mismatched input), the call completes without error, copying
`array[y][x]` into the active buffer at exactly the positions
`y < height`, `x < width`, silently ignoring extra rows and columns, and
leaving every other cell of the active buffer at its prior value. -/
theorem setArray_no_shape_check (g : GameOfLife) (a : List (List ℕ))
    (hrows : g.height ≤ a.length)
    (hcols : ∀ y, y < g.height → g.width ≤ (a.getD y []).length) :
    g.setArrayThrows a = false ∧
      (∀ y, y < g.height → ∀ x, x < g.width →
        g.setArray a y x = some ((a.getD y []).getD x 0)) ∧
      (∀ y x, ¬(y < g.height ∧ x < g.width) →
        g.setArray a y x = some (g.arrays g.index y x)) := by
  refine ⟨?_, fun y hy x hx => ?_, fun y x hout => ?_⟩
  · rw [GameOfLife.setArrayThrows, decide_eq_false_iff_not]
    rintro ⟨hlt, _⟩
    omega
  · have hx2 : x < (a.getD y []).length := lt_of_lt_of_le hx (hcols y hy)
    rw [GameOfLife.setArray,
      if_pos ⟨hy, hx, lt_of_lt_of_le hy hrows⟩,
      List.getD_eq_get? (a.getD y []) x 0, List.get?_eq_get hx2]
    rfl
  · rw [GameOfLife.setArray, if_neg fun h => hout ⟨h.1, h.2.1⟩]

/-- Witness for C9 at a 2×1 engine and a strictly larger 2×3 input. -/
theorem setArray_no_shape_check_witness :
    (GameOfLife.make 2 1).setArrayThrows [[5, 7, 9], [1, 2, 3]] = false ∧
      (∀ y, y < (GameOfLife.make 2 1).height →
        ∀ x, x < (GameOfLife.make 2 1).width →
          (GameOfLife.make 2 1).setArray [[5, 7, 9], [1, 2, 3]] y x =
            some ((([[5, 7, 9], [1, 2, 3]] : List (List ℕ)).getD y []).getD
              x 0)) ∧
      (∀ y x, ¬(y < (GameOfLife.make 2 1).height ∧
          x < (GameOfLife.make 2 1).width) →
        (GameOfLife.make 2 1).setArray [[5, 7, 9], [1, 2, 3]] y x =
          some ((GameOfLife.make 2 1).arrays (GameOfLife.make 2 1).index
            y x)) :=
  setArray_no_shape_check (GameOfLife.make 2 1) [[5, 7, 9], [1, 2, 3]]
    (by decide) (by decide)

/-- C5 counterexample.  In the `part_001` deployment the code keeps a cell
live only when the draw exceeds `0.75`; over a uniform draw in `[0,1)`
that event has measure `1/4`, not the claimed `3/4`. -/
theorem randomize_one_measure_not_three_quarters :
    MeasureTheory.volume (randomizeOneSet (3/4) ∩ Set.Ico (0 : ℝ) 1) =
        ENNReal.ofReal (1/4) ∧
      ENNReal.ofReal ((1 : ℝ)/4) ≠ ENNReal.ofReal ((3 : ℝ)/4) := by
  constructor
  · rw [randomizeOneSet_inter_Ico (3/4) (by norm_num), Real.volume_Ioo]
    norm_num
  · rw [Ne, ENNReal.ofReal_eq_ofReal_iff (by norm_num) (by norm_num)]
    norm_num

/-- C5 amended.  The draws assigned 1 by `randomize` are exactly those
above the threshold, so with a uniform draw on `[0,1)` the assignment
probability is `1/2` in the `src/src/index.js` deployment (threshold
`0.5`) and `1/4` — not `3/4` — in the `part_001` deployment (threshold
`0.75`). -/
theorem randomize_one_probability_measures :
    (∀ r : ℚ, randCell (1/2) r = 1 ↔ ((r : ℝ) ∈ randomizeOneSet (1/2))) ∧
      (∀ r : ℚ, randCell (3/4) r = 1 ↔ ((r : ℝ) ∈ randomizeOneSet (3/4))) ∧
      MeasureTheory.volume (randomizeOneSet (1/2) ∩ Set.Ico (0 : ℝ) 1) =
        ENNReal.ofReal (1/2) ∧
      MeasureTheory.volume (randomizeOneSet (3/4) ∩ Set.Ico (0 : ℝ) 1) =
        ENNReal.ofReal (1/4) := by
  have bridge : ∀ p r : ℚ, randCell p r = 1 ↔ ((p : ℝ) < (r : ℝ)) := by
    intro p r
    by_cases hpr : p < r
    · have hc : ((p : ℝ) < (r : ℝ)) := by exact_mod_cast hpr
      simp [randCell, hpr, hc]
    · have hc : ¬((p : ℝ) < (r : ℝ)) := by exact_mod_cast hpr
      simp [randCell, hpr, hc]
  refine ⟨fun r => ?_, fun r => ?_, ?_, ?_⟩
  · rw [bridge (1/2) r]
    simp only [randomizeOneSet, Set.mem_setOf_eq]
    norm_num
  · rw [bridge (3/4) r]
    simp only [randomizeOneSet, Set.mem_setOf_eq]
    norm_num
  · rw [randomizeOneSet_inter_Ico (1/2) (by norm_num), Real.volume_Ioo]
    norm_num
  · rw [randomizeOneSet_inter_Ico (3/4) (by norm_num), Real.volume_Ioo]
    norm_num
